import Mathlib

/-!
# Verification of the tcgl numerics package

A shallow embedding of `numerics/numerics.go` (Tideland Common Go Library,
numerics package): 2D points, point sets, polynomial evaluation, natural
cubic spline construction and evaluation, and an online least-squares
accumulator.

Modelling conventions:
* `float64` values are modelled as exact rationals `ℚ`; the claims under
  study are about exact arithmetic on small rational inputs.
* A Go `panic` (index out of range, explicit `panic`) is modelled by an
  `Option` result being `none`; `math.NaN()` returned as a sentinel by
  `slope` is likewise modelled as `none` of `Option ℚ`.
* Go slices are mutable and aliased; where the source shares one backing
  array between several values (the spline's single `coefficients` slice),
  the embedding carries the final contents of that shared array, which is
  what every holder of the slice observes once construction finished.
-/

namespace Tcgl

/-- Embeds Go `type Point struct { x, y float64 }`. -/
structure Point where
  x : ℚ
  y : ℚ
deriving DecidableEq, Repr, Inhabited

/-- Embeds Go `type Points struct { points []*Point }`: an ordered sequence
of points. -/
structure Points where
  points : List Point
deriving DecidableEq, Repr, Inhabited

namespace Points

/-- Embeds `Points.Len`. -/
def Len (ps : Points) : ℕ := ps.points.length

/-- Embeds `Points.XAt`: the x value of the point at an index.  The Go
version panics on an out-of-range index; the spline code only calls it
in range, and the embedding returns the x of a default point out of range. -/
def XAt (ps : Points) (idx : ℕ) : ℚ := (ps.points.getD idx default).x

/-- Embeds `Points.YAt`. -/
def YAt (ps : Points) (idx : ℕ) : ℚ := (ps.points.getD idx default).y

/-- Embeds `Points.XDifference`: `x[idxA] - x[idxB]`. -/
def XDifference (ps : Points) (idxA idxB : ℕ) : ℚ := ps.XAt idxA - ps.XAt idxB

/-- Embeds `Points.YDifference`: `y[idxA] - y[idxB]`. -/
def YDifference (ps : Points) (idxA idxB : ℕ) : ℚ := ps.YAt idxA - ps.YAt idxB

/-- Embeds `Points.XInRange`.  The Go code reads `ps.points[0]` before any
check, so on an empty set it panics (modelled as `none`); otherwise it runs
one pass over the remaining points keeping the running minimum and maximum
of the x values (`if p.X() < minX { minX = p.X() }`, and symmetrically for
the maximum), and returns `minX <= x && x <= maxX`. -/
def XInRange (ps : Points) (x : ℚ) : Option Bool :=
  match ps.points with
  | [] => none
  | p :: rest =>
      let mm := minmaxLoop rest p.x p.x
      some (decide (mm.1 ≤ x ∧ x ≤ mm.2))
where
  /-- The scan `for _, p := range ps.points[1:]` carrying `minX` and `maxX`. -/
  minmaxLoop : List Point → ℚ → ℚ → ℚ × ℚ
    | [], minX, maxX => (minX, maxX)
    | q :: rest, minX, maxX =>
        minmaxLoop rest
          (if q.x < minX then q.x else minX)
          (if q.x > maxX then q.x else maxX)

end Points

/-- Embeds the loop of Go `sort.Search(n, f)`:
`i, j := 0, n; for i < j { h := (i+j)/2; if !f(h) { i = h+1 } else { j = h } }; return i`.
The loop terminates because `j - i` strictly decreases, so a fuel of `n`
(the initial `j - i`) is always sufficient; the fuel only makes that
termination argument explicit. -/
def searchLoop (f : ℕ → Bool) : ℕ → ℕ → ℕ → ℕ
  | 0, i, _ => i
  | fuel + 1, i, j =>
      if i < j then
        if f ((i + j) / 2) then searchLoop f fuel i ((i + j) / 2)
        else searchLoop f fuel ((i + j) / 2 + 1) j
      else i

/-- Embeds Go `sort.Search(n, f)`. -/
def sortSearch (n : ℕ) (f : ℕ → Bool) : ℕ := searchLoop f n 0 n

/-- Embeds `Points.SearchNextIndex`: `sort.Search(len(points), func(i) { return x < points[i].X() })`. -/
def Points.SearchNextIndex (ps : Points) (x : ℚ) : ℕ :=
  sortSearch ps.Len (fun i => decide (x < ps.XAt i))

/-- Embeds `Points.Map`: for each point the mapping function is applied, and
when its result is non-nil (`isSome`) the *original* point is appended to the
new set. -/
def Points.Map (ps : Points) (f : Point → Option Point) : Points :=
  ⟨mapLoop ps.points⟩
where
  mapLoop : List Point → List Point
    | [] => []
    | p :: rest =>
        match f p with
        | some _ => p :: mapLoop rest
        | none => mapLoop rest

/-- Embeds Go `type PolynomialFunction struct { coefficients []float64 }`:
`coefficients[i]` is the coefficient of `x^i`. -/
structure PolynomialFunction where
  coefficients : List ℚ
deriving DecidableEq, Repr, Inhabited

/-- Embeds `NewPolynomialFunction`: returns nil (`none`) when the coefficient
list is empty, otherwise the polynomial over those coefficients. -/
def NewPolynomialFunction (coefficients : List ℚ) : Option PolynomialFunction :=
  if coefficients.length < 1 then none
  else some ⟨coefficients⟩

/-- Horner evaluation exactly as the loop in `PolynomialFunction.Eval`:
`result := c[n-1]; for i := n-2; i >= 0; i-- { result = x*result + c[i] }`.
For `[c]` the loop body never runs and the result is `c`; each recursive
step adds one `x*result + c[i]` wrap, giving the identical expression tree.
The Go code panics on an empty coefficient list (never built by
`NewPolynomialFunction`); the embedding returns 0 there. -/
def horner (x : ℚ) : List ℚ → ℚ
  | [] => 0
  | [c] => c
  | c :: rest => c + x * horner x rest

/-- Embeds `PolynomialFunction.Eval`. -/
def PolynomialFunction.Eval (pf : PolynomialFunction) (x : ℚ) : ℚ :=
  horner x pf.coefficients

/-! ## Cubic spline construction

`NewCubicSplineFunction` builds local arrays `differences`, `mu`, `z`,
`b`, `c`, `d`.  They are embedded as functions of the point set and the
index, each mirroring the assignment that fills the corresponding array
entry in the source.  The Go arrays are zero-initialised and the loops
write exactly the entries the later code reads: `mu[0] = z[0] = 0` stay
at their zero initialisation, `c[intervals] = 0` likewise, and the
recurrences below reproduce the assignments for the written entries. -/

namespace CubicSplineAux

/-- `differences[i] = points.XDifference(i+1, i)`. -/
def differences (ps : Points) (i : ℕ) : ℚ := ps.XDifference (i + 1) i

/-- The forward-elimination pass: `muz ps i = (mu[i], z[i])`.
`mu[0] = z[0] = 0` (zero-initialised, the loop starts at `i = 1`); for
`i >= 1` the pair is filled by the loop body
`g = 2*XDifference(i+1,i-1) - differences[i-1]*mu[i-1]`,
`mu[i] = differences[i]/g`,
`z[i] = (3*(y[i+1]*differences[i-1] - y[i]*XDifference(i+1,i-1) + y[i-1]*differences[i]) / (differences[i-1]*differences[i]) - differences[i-1]*z[i-1]) / g`. -/
def muz (ps : Points) : ℕ → ℚ × ℚ
  | 0 => (0, 0)
  | i + 1 =>
      let prev := muz ps i
      let g := 2 * ps.XDifference (i + 2) i - differences ps i * prev.1
      (differences ps (i + 1) / g,
       (3 * (ps.YAt (i + 2) * differences ps i
             - ps.YAt (i + 1) * ps.XDifference (i + 2) i
             + ps.YAt i * differences ps (i + 1))
          / (differences ps i * differences ps (i + 1))
        - differences ps i * prev.2) / g)

/-- `mu[i]` of the forward elimination. -/
def mu (ps : Points) (i : ℕ) : ℚ := (muz ps i).1

/-- `z[i]` of the forward elimination. -/
def z (ps : Points) (i : ℕ) : ℚ := (muz ps i).2

/-- Back-substitution counted from the top: `cAux ps k = c[intervals - k]`,
with `intervals = Len - 1`.  `cAux 0 = c[intervals] = 0` (zero-initialised,
never assigned); each further step is the loop body
`c[i] = z[i] - mu[i]*c[i+1]` for `i = intervals - (k+1)`. -/
def cAux (ps : Points) : ℕ → ℚ
  | 0 => 0
  | k + 1 =>
      let i := ps.Len - 1 - (k + 1)
      z ps i - mu ps i * cAux ps k

/-- `c[i]` of the back-substitution: `c[i] = cAux (intervals - i)`. -/
def c (ps : Points) (i : ℕ) : ℚ := cAux ps (ps.Len - 1 - i)

/-- `b[i] = YDifference(i+1,i)/differences[i] - differences[i]*(c[i+1] + 2*c[i])/3`. -/
def b (ps : Points) (i : ℕ) : ℚ :=
  ps.YDifference (i + 1) i / differences ps i
    - differences ps i * (c ps (i + 1) + 2 * c ps i) / 3

/-- `d[i] = (c[i+1] - c[i]) / (3 * differences[i])`. -/
def d (ps : Points) (i : ℕ) : ℚ :=
  (c ps (i + 1) - c ps i) / (3 * differences ps i)

/-- The contents of the single `coefficients` slice after the build loop.
The Go source allocates `coefficients := make([]float64, 4)` once, and each
iteration of `for i := 0; i < intervals; i++` overwrites its four entries
with `y[i], b[i], c[i], d[i]` before handing the *same slice* to
`NewPolynomialFunction`.  The fold reproduces the sequence of overwrites;
its result is the contents left by the last iteration, which is what every
constructed polynomial observes through its aliased slice. -/
def sharedCoefficients (ps : Points) : List ℚ :=
  (List.range (ps.Len - 1)).foldl
    (fun _ i => [ps.YAt i, b ps i, c ps i, d ps i])
    [0, 0, 0, 0]

end CubicSplineAux

/-- Embeds Go `type CubicSplineFunction struct { polynomials []*PolynomialFunction; points *Points }`. -/
structure CubicSplineFunction where
  polynomials : List PolynomialFunction
  points : Points
deriving DecidableEq, Repr

/-- Embeds `NewCubicSplineFunction`: nil (`none`) when fewer than 3 points
are supplied; otherwise one polynomial per interval.  Since every stored
polynomial holds the same aliased `coefficients` slice, each of the
`intervals` entries carries `sharedCoefficients`. -/
def NewCubicSplineFunction (points : Points) : Option CubicSplineFunction :=
  if points.Len < 3 then none
  else
    some
      { points := points
        polynomials :=
          List.replicate (points.Len - 1)
            ⟨CubicSplineAux.sharedCoefficients points⟩ }

/-- Embeds `CubicSplineFunction.Eval`: panics (`none`) when `XInRange`
fails (and the inner index panic of `XInRange` on an empty set is also a
panic); otherwise `idx := SearchNextIndex(x)`, clamped to the last
polynomial index, and the local polynomial is evaluated at `x - x[idx]`. -/
def CubicSplineFunction.Eval (csf : CubicSplineFunction) (x : ℚ) : Option ℚ :=
  match csf.points.XInRange x with
  | none => none
  | some false => none
  | some true =>
      let idx0 := csf.points.SearchNextIndex x
      let idx := if idx0 ≥ csf.polynomials.length then csf.polynomials.length - 1 else idx0
      some ((csf.polynomials.getD idx default).Eval (x - csf.points.XAt idx))

/-- Embeds Go `type LeastSquaresFunction struct`: the six scalar
accumulators and the point count. -/
structure LeastSquaresFunction where
  sumX : ℚ
  sumXX : ℚ
  sumY : ℚ
  sumYY : ℚ
  sumXY : ℚ
  xBar : ℚ
  yBar : ℚ
  count : ℕ
deriving DecidableEq, Repr

/-- The zero value produced by Go `new(LeastSquaresFunction)`. -/
def LeastSquaresFunction.init : LeastSquaresFunction :=
  ⟨0, 0, 0, 0, 0, 0, 0, 0⟩

/-- Embeds `LeastSquaresFunction.AppendPoint`: on the first point only the
running means are set; afterwards the centred Welford-style updates run;
in both cases `sumX`, `sumY` and `count` are updated unconditionally. -/
def LeastSquaresFunction.AppendPoint (lsf : LeastSquaresFunction) (x y : ℚ) :
    LeastSquaresFunction :=
  if lsf.count = 0 then
    { lsf with
        xBar := x
        yBar := y
        sumX := lsf.sumX + x
        sumY := lsf.sumY + y
        count := lsf.count + 1 }
  else
    let dx := x - lsf.xBar
    let dy := y - lsf.yBar
    let k : ℚ := lsf.count
    { sumXX := lsf.sumXX + dx * dx * k / (k + 1)
      sumYY := lsf.sumYY + dy * dy * k / (k + 1)
      sumXY := lsf.sumXY + dx * dy * k / (k + 1)
      xBar := lsf.xBar + dx / (k + 1)
      yBar := lsf.yBar + dy / (k + 1)
      sumX := lsf.sumX + x
      sumY := lsf.sumY + y
      count := lsf.count + 1 }

/-- Embeds `LeastSquaresFunction.AppendPoints`: `AppendPoint` once per
member, in set order (via `Points.Do`). -/
def LeastSquaresFunction.AppendPoints (lsf : LeastSquaresFunction) (ps : Points) :
    LeastSquaresFunction :=
  ps.points.foldl (fun l p => l.AppendPoint p.x p.y) lsf

/-- Embeds `NewLeastSquaresFunction`: the zero accumulator, fed the given
set when it is non-nil. -/
def NewLeastSquaresFunction (points : Option Points) : LeastSquaresFunction :=
  match points with
  | none => LeastSquaresFunction.init
  | some ps => LeastSquaresFunction.init.AppendPoints ps

/-- Go `math.SmallestNonzeroFloat64 = 4.9406564584124654e-324`, exactly
`2^-1074`, as a rational. -/
def smallestNonzeroFloat64 : ℚ := 1 / 2 ^ 1074

/-- Embeds `LeastSquaresFunction.slope`: `math.NaN()` (modelled `none`)
when fewer than two points were added or `math.Abs(sumXX)` is below
`10 * math.SmallestNonzeroFloat64`; otherwise `sumXY / sumXX`. -/
def LeastSquaresFunction.slope (lsf : LeastSquaresFunction) : Option ℚ :=
  if lsf.count < 2 then none
  else if |lsf.sumXX| < 10 * smallestNonzeroFloat64 then none
  else some (lsf.sumXY / lsf.sumXX)

/-- Embeds the loop of the helper `evalPoints`:
`for x := fromX; x < toX; x += interval { points.AppendPoint(x, f.Eval(x)) }`.
The loop is well defined for a positive step, which the embedding carries
as a hypothesis; each pass appends `(x, f x)` and advances by `step`. -/
def evalPointsLoop (f : ℚ → ℚ) (toX step : ℚ) (hstep : 0 < step) (x : ℚ) :
    List Point :=
  if _h : x < toX then ⟨x, f x⟩ :: evalPointsLoop f toX step hstep (x + step)
  else []
termination_by (⌈(toX - x) / step⌉).toNat
decreasing_by
  have hq : 0 < (toX - x) / step := div_pos (by linarith) hstep
  have h1 : (0 : ℤ) < ⌈(toX - x) / step⌉ := Int.ceil_pos.mpr hq
  have h2 : (toX - (x + step)) / step = (toX - x) / step - 1 := by
    rw [show toX - (x + step) = toX - x - step by ring, sub_div,
      div_self (ne_of_gt hstep)]
  rw [h2, Int.ceil_sub_one]
  omega

/-- Embeds the helper `evalPoints(f, fromX, toX, count)`:
`interval := (toX - fromX) / float64(count)`, then the sampling loop.
A non-positive interval with `fromX >= toX` makes the Go loop produce no
points, embedded as the empty set; the remaining non-positive-interval
cases (a division by `count = 0`, or a non-terminating loop) fall outside
exact-rational behaviour and are also embedded as the empty set — the
properties under study only concern `fromX < toX` with `0 < count`, where
the interval is positive. -/
def evalPoints (f : ℚ → ℚ) (fromX toX : ℚ) (count : ℕ) : Points :=
  if h : 0 < (toX - fromX) / (count : ℚ) then
    ⟨evalPointsLoop f toX ((toX - fromX) / (count : ℚ)) h fromX⟩
  else ⟨[]⟩

/-! ## Concrete data used by several properties -/

/-- The knot set `(0,0),(1,1),(2,0),(3,1)` of the spline test, whose
x values are `[0,1,2,3]`. -/
def exKnots : Points := ⟨[⟨0, 0⟩, ⟨1, 1⟩, ⟨2, 0⟩, ⟨3, 1⟩]⟩

/-- The spline value `NewCubicSplineFunction` builds from `exKnots`
(the construction succeeds, see `exSpline_eq`). -/
def exSpline : CubicSplineFunction :=
  { points := exKnots
    polynomials :=
      List.replicate (exKnots.Len - 1) ⟨CubicSplineAux.sharedCoefficients exKnots⟩ }

lemma exSpline_eq : NewCubicSplineFunction exKnots = some exSpline := rfl

/-! ## Helper lemmas -/

lemma horner_cons (x c : ℚ) (rest : List ℚ) :
    horner x (c :: rest) = c + x * horner x rest := by
  cases rest with
  | nil => simp [horner]
  | cons c2 r2 => rfl

lemma horner_eq_sum (x : ℚ) (l : List ℚ) :
    horner x l = ∑ i ∈ Finset.range l.length, l.getD i 0 * x ^ i := by
  induction l with
  | nil => simp [horner]
  | cons c rest ih =>
      rw [horner_cons, ih, List.length_cons, Finset.sum_range_succ', Finset.mul_sum]
      simp only [List.getD_cons_succ, List.getD_cons_zero, pow_zero, mul_one]
      rw [add_comm c]
      congr 1
      exact Finset.sum_congr rfl fun i _ => by ring

lemma mapLoop_eq_filter (f : Point → Option Point) (l : List Point) :
    Points.Map.mapLoop f l = l.filter fun p => (f p).isSome := by
  induction l with
  | nil => rfl
  | cons p rest ih =>
      cases h : f p <;> simp [Points.Map.mapLoop, h, List.filter_cons, ih]

/-! ## Claim theorems -/

/-- Claim C6: `Points.Map` keeps exactly the original points on which the
mapping function yields a present value, in the original order and
unchanged (the result list is a filter of the original list); every point
of the result is a member of the original set, so mapped values never
appear. -/
theorem map_retains_original_points :
    ∀ (ps : Points) (f : Point → Option Point),
      (ps.Map f).points = ps.points.filter (fun p => (f p).isSome) ∧
      ∀ q ∈ (ps.Map f).points, q ∈ ps.points := by
  intro ps f
  have h : (ps.Map f).points = ps.points.filter (fun p => (f p).isSome) :=
    mapLoop_eq_filter f ps.points
  refine ⟨h, fun q hq => ?_⟩
  rw [h] at hq
  exact (List.mem_filter.mp hq).1

/-- Witness for C6 on a two-point set with a mapping function that is
present exactly on the first point (and maps it to a different point,
which is discarded). -/
theorem map_retains_original_points_witness :
    ((Points.mk [⟨1, 2⟩, ⟨3, 4⟩]).Map
        (fun p => if p.x < 2 then some ⟨0, 0⟩ else none)).points =
      (Points.mk [⟨1, 2⟩, ⟨3, 4⟩]).points.filter
        (fun p => ((if p.x < 2 then some (⟨0, 0⟩ : Point) else none)).isSome) ∧
    ∀ q ∈ ((Points.mk [⟨1, 2⟩, ⟨3, 4⟩]).Map
        (fun p => if p.x < 2 then some ⟨0, 0⟩ else none)).points,
      q ∈ (Points.mk [⟨1, 2⟩, ⟨3, 4⟩]).points :=
  map_retains_original_points ⟨[⟨1, 2⟩, ⟨3, 4⟩]⟩
    (fun p => if p.x < 2 then some ⟨0, 0⟩ else none)

/-- Claim C7: `PolynomialFunction.Eval` (Horner's method from highest to
lowest degree) equals the power sum `Σ ci·x^i` over exact arithmetic, for
every non-empty coefficient list and every `x`. -/
theorem eval_horner_power_sum :
    ∀ (pf : PolynomialFunction) (x : ℚ), pf.coefficients ≠ [] →
      pf.Eval x =
        ∑ i ∈ Finset.range pf.coefficients.length, pf.coefficients.getD i 0 * x ^ i := by
  intro pf x _
  exact horner_eq_sum x pf.coefficients

/-- Witness for C7 at the polynomial `1 + 2x + 3x^2` and `x = 2`. -/
theorem eval_horner_power_sum_witness :
    (PolynomialFunction.mk [1, 2, 3]).coefficients ≠ [] ∧
      (PolynomialFunction.mk [1, 2, 3]).Eval 2 =
        ∑ i ∈ Finset.range (PolynomialFunction.mk [1, 2, 3]).coefficients.length,
          (PolynomialFunction.mk [1, 2, 3]).coefficients.getD i 0 * (2 : ℚ) ^ i :=
  ⟨by decide, eval_horner_power_sum ⟨[1, 2, 3]⟩ 2 (by decide)⟩

/-- Claim C9: construction fails by producing no value exactly in the two
specified cases — `NewPolynomialFunction` returns `none` iff the
coefficient list is empty (and returns a polynomial holding the given
coefficients otherwise), and `NewCubicSplineFunction` returns `none` iff
fewer than 3 points are supplied. -/
theorem construction_failure_iff :
    (∀ cs : List ℚ, NewPolynomialFunction cs = none ↔ cs = []) ∧
    (∀ cs : List ℚ, cs ≠ [] →
      ∃ pf, NewPolynomialFunction cs = some pf ∧ pf.coefficients = cs) ∧
    (∀ ps : Points, NewCubicSplineFunction ps = none ↔ ps.Len < 3) := by
  refine ⟨fun cs => ?_, fun cs h => ?_, fun ps => ?_⟩
  · simp only [NewPolynomialFunction]
    split_ifs with hlen
    · simp only [true_iff]
      exact List.length_eq_zero.mp (by omega)
    · constructor
      · intro h
        exact absurd h (by simp)
      · intro h
        subst h
        simp at hlen
  · refine ⟨⟨cs⟩, ?_, rfl⟩
    simp only [NewPolynomialFunction]
    rw [if_neg]
    intro hlen
    exact h (List.length_eq_zero.mp (by omega))
  · simp only [NewCubicSplineFunction]
    split_ifs with hlen
    · simpa using hlen
    · constructor
      · intro h
        exact absurd h (by simp)
      · intro h
        exact absurd h hlen

/-- Witness for C9's second conjunct at the coefficient list `[1, 2]`. -/
theorem construction_failure_iff_witness :
    ∃ pf, NewPolynomialFunction [1, 2] = some pf ∧ pf.coefficients = [1, 2] :=
  construction_failure_iff.2.1 [1, 2] (by decide)

lemma minmaxLoop_fst_le_iff (x : ℚ) :
    ∀ (l : List Point) (minX maxX : ℚ),
      (Points.XInRange.minmaxLoop l minX maxX).1 ≤ x ↔
        minX ≤ x ∨ ∃ p ∈ l, p.x ≤ x := by
  intro l
  induction l with
  | nil => simp [Points.XInRange.minmaxLoop]
  | cons q rest ih =>
      intro minX maxX
      rw [Points.XInRange.minmaxLoop, ih]
      simp only [List.mem_cons, exists_eq_or_imp]
      split_ifs with hq
      · constructor
        · rintro (h | h)
          · exact Or.inr (Or.inl h)
          · exact Or.inr (Or.inr h)
        · rintro (h | h | h)
          · exact Or.inl (by linarith)
          · exact Or.inl h
          · exact Or.inr h
      · constructor
        · rintro (h | h)
          · exact Or.inl h
          · exact Or.inr (Or.inr h)
        · rintro (h | h | h)
          · exact Or.inl h
          · exact Or.inl (by linarith)
          · exact Or.inr h

lemma minmaxLoop_le_snd_iff (x : ℚ) :
    ∀ (l : List Point) (minX maxX : ℚ),
      x ≤ (Points.XInRange.minmaxLoop l minX maxX).2 ↔
        x ≤ maxX ∨ ∃ p ∈ l, x ≤ p.x := by
  intro l
  induction l with
  | nil => simp [Points.XInRange.minmaxLoop]
  | cons q rest ih =>
      intro minX maxX
      rw [Points.XInRange.minmaxLoop, ih]
      simp only [List.mem_cons, exists_eq_or_imp]
      split_ifs with hq
      · constructor
        · rintro (h | h)
          · exact Or.inr (Or.inl h)
          · exact Or.inr (Or.inr h)
        · rintro (h | h | h)
          · exact Or.inl (by linarith)
          · exact Or.inl h
          · exact Or.inr h
      · constructor
        · rintro (h | h)
          · exact Or.inl h
          · exact Or.inr (Or.inr h)
        · rintro (h | h | h)
          · exact Or.inl h
          · exact Or.inl (by linarith)
          · exact Or.inr h

/-- Claim C10: `Points.XInRange` reads the point at index 0 before scanning,
so it panics (`none`) exactly on the empty set; on every non-empty set it
is total (`isSome`) and yields `true` iff `x` is bounded below by some
point's x and above by some point's x — i.e. `min(x_k) ≤ x ≤ max(x_k)` —
regardless of the order of the points. -/
theorem xInRange_needs_nonempty :
    (∀ x : ℚ, Points.XInRange ⟨[]⟩ x = none) ∧
    (∀ (ps : Points) (x : ℚ), ps.points ≠ [] →
      (ps.XInRange x).isSome = true ∧
      (ps.XInRange x = some true ↔
        (∃ p ∈ ps.points, p.x ≤ x) ∧ (∃ p ∈ ps.points, x ≤ p.x))) := by
  refine ⟨fun x => rfl, fun ps x hne => ?_⟩
  obtain ⟨l⟩ := ps
  cases l with
  | nil => exact absurd rfl hne
  | cons p rest =>
      simp only [Points.XInRange, Option.isSome_some, true_and, Option.some_inj,
        decide_eq_true_eq]
      rw [minmaxLoop_fst_le_iff, minmaxLoop_le_snd_iff]
      simp only [List.mem_cons]
      constructor
      · rintro ⟨hlo, hhi⟩
        refine ⟨?_, ?_⟩
        · rcases hlo with h | ⟨q, hq1, hq2⟩
          · exact ⟨p, Or.inl rfl, h⟩
          · exact ⟨q, Or.inr hq1, hq2⟩
        · rcases hhi with h | ⟨q, hq1, hq2⟩
          · exact ⟨p, Or.inl rfl, h⟩
          · exact ⟨q, Or.inr hq1, hq2⟩
      · rintro ⟨⟨q, hq1, hq2⟩, ⟨r, hr1, hr2⟩⟩
        refine ⟨?_, ?_⟩
        · rcases hq1 with rfl | hmem
          · exact Or.inl hq2
          · exact Or.inr ⟨q, hmem, hq2⟩
        · rcases hr1 with rfl | hmem
          · exact Or.inl hr2
          · exact Or.inr ⟨r, hmem, hr2⟩

/-- Witness for C10's non-empty part on an unsorted set at `x = 1`. -/
theorem xInRange_needs_nonempty_witness :
    ((Points.mk [⟨2, 5⟩, ⟨0, 1⟩, ⟨3, 7⟩]).XInRange 1).isSome = true ∧
    ((Points.mk [⟨2, 5⟩, ⟨0, 1⟩, ⟨3, 7⟩]).XInRange 1 = some true ↔
      (∃ p ∈ (Points.mk [⟨2, 5⟩, ⟨0, 1⟩, ⟨3, 7⟩]).points, p.x ≤ 1) ∧
      (∃ p ∈ (Points.mk [⟨2, 5⟩, ⟨0, 1⟩, ⟨3, 7⟩]).points, 1 ≤ p.x)) :=
  xInRange_needs_nonempty.2 ⟨[⟨2, 5⟩, ⟨0, 1⟩, ⟨3, 7⟩]⟩ 1 (by decide)

/-- Claim C4: `LeastSquaresFunction.slope` is the NaN sentinel (`none`)
iff `count < 2` or `|sumXX| < 10 * math.SmallestNonzeroFloat64`, and is
the value `sumXY / sumXX` otherwise; an accumulator fed zero points, one
point, or only the points `(5,1),(5,9)` sharing one x value yields the
sentinel.  The sentinel is a returned value of the function, not a raised
error: `slope` is total. -/
theorem slope_nan_sentinel :
    (∀ lsf : LeastSquaresFunction,
      (lsf.slope = none ↔
        lsf.count < 2 ∨ |lsf.sumXX| < 10 * smallestNonzeroFloat64) ∧
      (¬(lsf.count < 2 ∨ |lsf.sumXX| < 10 * smallestNonzeroFloat64) →
        lsf.slope = some (lsf.sumXY / lsf.sumXX))) ∧
    (NewLeastSquaresFunction (some ⟨[]⟩)).slope = none ∧
    (NewLeastSquaresFunction (some ⟨[⟨5, 1⟩]⟩)).slope = none ∧
    (NewLeastSquaresFunction (some ⟨[⟨5, 1⟩, ⟨5, 9⟩]⟩)).slope = none := by
  refine ⟨fun lsf => ?_,
    by norm_num [NewLeastSquaresFunction, LeastSquaresFunction.AppendPoints,
      LeastSquaresFunction.AppendPoint, LeastSquaresFunction.init,
      LeastSquaresFunction.slope],
    by norm_num [NewLeastSquaresFunction, LeastSquaresFunction.AppendPoints,
      LeastSquaresFunction.AppendPoint, LeastSquaresFunction.init,
      LeastSquaresFunction.slope],
    by norm_num [NewLeastSquaresFunction, LeastSquaresFunction.AppendPoints,
      LeastSquaresFunction.AppendPoint, LeastSquaresFunction.init,
      LeastSquaresFunction.slope, smallestNonzeroFloat64]⟩
  simp only [LeastSquaresFunction.slope]
  split_ifs with h1 h2
  · simp [h1]
  · simp [h1, h2]
  · constructor
    · simp [h1, h2]
    · intro
      rfl

/-- Witness for C4's general part on the accumulator fed `(0,0),(1,1)`. -/
theorem slope_nan_sentinel_witness :
    ¬((NewLeastSquaresFunction (some ⟨[⟨0, 0⟩, ⟨1, 1⟩]⟩)).count < 2 ∨
        |(NewLeastSquaresFunction (some ⟨[⟨0, 0⟩, ⟨1, 1⟩]⟩)).sumXX| <
          10 * smallestNonzeroFloat64) ∧
    (NewLeastSquaresFunction (some ⟨[⟨0, 0⟩, ⟨1, 1⟩]⟩)).slope =
      some ((NewLeastSquaresFunction (some ⟨[⟨0, 0⟩, ⟨1, 1⟩]⟩)).sumXY /
        (NewLeastSquaresFunction (some ⟨[⟨0, 0⟩, ⟨1, 1⟩]⟩)).sumXX) := by
  have hrec : NewLeastSquaresFunction (some ⟨[⟨0, 0⟩, ⟨1, 1⟩]⟩) =
      ⟨1, 1 / 2, 1, 1 / 2, 1 / 2, 1 / 2, 1 / 2, 2⟩ := by
    norm_num [NewLeastSquaresFunction, LeastSquaresFunction.AppendPoints,
      LeastSquaresFunction.AppendPoint, LeastSquaresFunction.init]
  have hcond : ¬((NewLeastSquaresFunction (some ⟨[⟨0, 0⟩, ⟨1, 1⟩]⟩)).count < 2 ∨
      |(NewLeastSquaresFunction (some ⟨[⟨0, 0⟩, ⟨1, 1⟩]⟩)).sumXX| <
        10 * smallestNonzeroFloat64) := by
    rw [hrec]
    have habs : |(1 : ℚ) / 2| = 1 / 2 := abs_of_nonneg (by norm_num)
    simp only [habs]
    norm_num [smallestNonzeroFloat64]
  exact ⟨hcond, (slope_nan_sentinel.1 _).2 hcond⟩

/-- Invariant proof for the `sort.Search` loop: with a predicate monotone
below `n`, starting from a window `[i, j]` with everything left of `i`
false, the loop lands on the leftmost true index of the window (or on `j`
when there is none).  The fuel bounds `j - i`, which strictly decreases. -/
lemma searchLoop_spec (g : ℕ → Bool) (n : ℕ)
    (mono : ∀ k l, k ≤ l → l < n → g k = true → g l = true) :
    ∀ (fuel i j : ℕ), j - i ≤ fuel → i ≤ j → j ≤ n →
      (∀ k < i, g k = false) →
      i ≤ searchLoop g fuel i j ∧ searchLoop g fuel i j ≤ j ∧
      (∀ k < searchLoop g fuel i j, g k = false) ∧
      (searchLoop g fuel i j < j → g (searchLoop g fuel i j) = true) := by
  intro fuel
  induction fuel with
  | zero =>
      intro i j hf hij _ hinv
      have hij' : i = j := by omega
      subst hij'
      rw [searchLoop]
      exact ⟨le_refl _, le_refl _, hinv, fun h => absurd h (lt_irrefl _)⟩
  | succ fuel ih =>
      intro i j hf hij hjn hinv
      rw [searchLoop]
      by_cases hlt : i < j
      · rw [if_pos hlt]
        have hhi : i ≤ (i + j) / 2 := by omega
        have hhj : (i + j) / 2 < j := by omega
        by_cases hg : g ((i + j) / 2) = true
        · rw [if_pos hg]
          have hrec := ih i ((i + j) / 2) (by omega) hhi (by omega) hinv
          refine ⟨hrec.1, by omega, hrec.2.2.1, fun hr => ?_⟩
          rcases lt_or_eq_of_le hrec.2.1 with h1 | h1
          · exact hrec.2.2.2 h1
          · rw [h1]
            exact hg
        · rw [if_neg hg]
          have hinv2 : ∀ k < (i + j) / 2 + 1, g k = false := by
            intro k hk
            by_cases hki : k < i
            · exact hinv k hki
            · cases hgk : g k with
              | false => rfl
              | true =>
                  exact absurd (mono k ((i + j) / 2) (by omega) (by omega) hgk) hg
          have hrec := ih ((i + j) / 2 + 1) j (by omega) (by omega) hjn hinv2
          exact ⟨by omega, hrec.2.1, hrec.2.2.1, hrec.2.2.2⟩
      · rw [if_neg hlt]
        exact ⟨le_refl _, hij, hinv, fun hr => absurd hr (by omega)⟩

/-- Claim C8: on a point set sorted ascending by x, `SearchNextIndex x` is
the leftmost index `i` with `x < points[i].x` — every index left of the
result fails the strict bound, the result itself (when it is not `Len()`)
satisfies it, and the result never exceeds `Len()`; on the set with
x values `[0,1,2,3]`, `SearchNextIndex (3/2) = 2` and
`SearchNextIndex 0 = 1`. -/
theorem searchNextIndex_leftmost_upper_bound :
    (∀ (ps : Points) (x : ℚ),
      ps.points.Pairwise (fun p q => p.x ≤ q.x) →
      ps.SearchNextIndex x ≤ ps.Len ∧
      (∀ k < ps.SearchNextIndex x, ¬x < ps.XAt k) ∧
      (ps.SearchNextIndex x < ps.Len → x < ps.XAt (ps.SearchNextIndex x))) ∧
    exKnots.SearchNextIndex (3 / 2) = 2 ∧ exKnots.SearchNextIndex 0 = 1 := by
  constructor
  · intro ps x hsort
    have hxm : ∀ (m : ℕ) (hm : m < ps.points.length),
        ps.XAt m = (ps.points.get ⟨m, hm⟩).x := by
      intro m hm
      simp only [Points.XAt, List.get_eq_getElem]
      rw [List.getD_eq_getElem _ _ hm]
    have mono : ∀ k l, k ≤ l → l < ps.Len →
        decide (x < ps.XAt k) = true → decide (x < ps.XAt l) = true := by
      intro k l hkl hl hk
      rw [decide_eq_true_eq] at hk ⊢
      have hln : l < ps.points.length := hl
      have hkn : k < ps.points.length := by omega
      have hxkl : ps.XAt k ≤ ps.XAt l := by
        rcases lt_or_eq_of_le hkl with hkl' | rfl
        · have hrel := List.pairwise_iff_get.mp hsort ⟨k, hkn⟩ ⟨l, hln⟩
            (Fin.mk_lt_mk.mpr hkl')
          rw [hxm k hkn, hxm l hln]
          exact hrel
        · exact le_refl _
      linarith
    have hspec := searchLoop_spec (fun i => decide (x < ps.XAt i)) ps.Len mono
      ps.Len 0 ps.Len (by omega) (by omega) (le_refl _)
      (fun k hk => absurd hk (Nat.not_lt_zero k))
    refine ⟨hspec.2.1, fun k hk => ?_, fun hlt => ?_⟩
    · have := hspec.2.2.1 k hk
      simpa using this
    · have := hspec.2.2.2 hlt
      simpa using this
  · constructor <;>
      norm_num [Points.SearchNextIndex, sortSearch, searchLoop, Points.Len,
        Points.XAt, exKnots]

/-- Exact characterisation of the sampling loop: when the target is exactly
`n` steps away, the loop produces the `n` sample points
`x, x + step, …, x + (n-1)*step`. -/
lemma evalPointsLoop_eq (f : ℚ → ℚ) (toX step : ℚ) (h : 0 < step) :
    ∀ (n : ℕ) (x : ℚ), toX = x + n * step →
      evalPointsLoop f toX step h x =
        (List.range n).map (fun k => ⟨x + k * step, f (x + k * step)⟩) := by
  intro n
  induction n with
  | zero =>
      intro x hx
      have hx' : toX = x := by
        rw [hx]
        push_cast
        ring
      rw [evalPointsLoop, dif_neg (by rw [hx']; exact lt_irrefl x)]
      simp
  | succ n ih =>
      intro x hx
      have hxlt : x < toX := by
        rw [hx]
        have : (0 : ℚ) < ((n : ℚ) + 1) * step :=
          mul_pos (by positivity) h
        push_cast
        linarith
      have hx2 : toX = (x + step) + n * step := by
        rw [hx]
        push_cast
        ring
      rw [evalPointsLoop, dif_pos hxlt, ih (x + step) hx2, List.range_succ_eq_map]
      simp only [List.map_cons, List.map_map]
      congr 1
      · norm_num
      · refine List.map_congr_left fun k _ => ?_
        have : x + ((k : ℚ) + 1) * step = x + step + k * step := by ring
        simp [Function.comp, this]

/-- Claim C5: for `fromX < toX` and `count > 0`, `evalPoints` samples at
`x = fromX + k*step` for `k = 0, …, count-1` with
`step = (toX - fromX)/count`, pairing each `x` with `f x`; it produces
exactly `count` points and never samples the upper boundary `toX` (every
produced x is strictly below it). -/
theorem evalPoints_halfopen_sampling :
    ∀ (f : ℚ → ℚ) (fromX toX : ℚ) (count : ℕ), fromX < toX → 0 < count →
      (evalPoints f fromX toX count).points =
        (List.range count).map (fun k =>
          ⟨fromX + k * ((toX - fromX) / count),
           f (fromX + k * ((toX - fromX) / count))⟩) ∧
      (evalPoints f fromX toX count).Len = count ∧
      ∀ p ∈ (evalPoints f fromX toX count).points, p.x < toX := by
  intro f fromX toX count hlt hcount
  have hc : (0 : ℚ) < (count : ℚ) := by exact_mod_cast hcount
  have hstep : 0 < (toX - fromX) / (count : ℚ) := div_pos (by linarith) hc
  have hx : toX = fromX + count * ((toX - fromX) / count) := by
    field_simp
  have hmain : (evalPoints f fromX toX count).points =
      (List.range count).map (fun k =>
        ⟨fromX + k * ((toX - fromX) / count),
         f (fromX + k * ((toX - fromX) / count))⟩) := by
    rw [evalPoints, dif_pos hstep]
    exact evalPointsLoop_eq f toX _ hstep count fromX hx
  refine ⟨hmain, ?_, ?_⟩
  · rw [Points.Len, hmain]
    simp
  · intro p hp
    rw [hmain] at hp
    simp only [List.mem_map, List.mem_range] at hp
    obtain ⟨k, hk, rfl⟩ := hp
    have hkc : (k : ℚ) < (count : ℚ) := by exact_mod_cast hk
    have := mul_lt_mul_of_pos_right hkc hstep
    dsimp only
    linarith [hx]

/-- Witness for C5 at the polynomial `1 + x` sampled on `[0, 10)` with
`count = 5`. -/
theorem evalPoints_halfopen_sampling_witness :
    (evalPoints (PolynomialFunction.Eval ⟨[1, 1]⟩) 0 10 5).points =
      (List.range 5).map (fun k =>
        ⟨0 + k * ((10 - 0) / (5 : ℕ)),
         PolynomialFunction.Eval ⟨[1, 1]⟩ (0 + k * ((10 - 0) / (5 : ℕ)))⟩) ∧
    (evalPoints (PolynomialFunction.Eval ⟨[1, 1]⟩) 0 10 5).Len = 5 ∧
    ∀ p ∈ (evalPoints (PolynomialFunction.Eval ⟨[1, 1]⟩) 0 10 5).points,
      p.x < 10 :=
  evalPoints_halfopen_sampling (PolynomialFunction.Eval ⟨[1, 1]⟩) 0 10 5
    (by norm_num) (by norm_num)

/-- The shared coefficient slice of the spline over `exKnots` holds the
last interval's values `[y[2], b[2], c[2], d[2]]`. -/
lemma sharedCoefficients_exKnots :
    CubicSplineAux.sharedCoefficients exKnots = [0, -(1 / 3), 2, -(2 / 3)] := by
  norm_num [CubicSplineAux.sharedCoefficients, CubicSplineAux.b,
    CubicSplineAux.c, CubicSplineAux.cAux, CubicSplineAux.d,
    CubicSplineAux.muz, CubicSplineAux.mu, CubicSplineAux.z,
    CubicSplineAux.differences, Points.XDifference, Points.YDifference,
    Points.XAt, Points.YAt, Points.Len, exKnots, List.range_succ]

/-- Claim C1 (refuting evaluation): the spline built from the knots
`(0,0),(1,1),(2,0),(3,1)` evaluates to `3, 3, 0, 1` at the knot
abscissas `0, 1, 2, 3` — it fails to interpolate the first two knots,
because every stored polynomial aliases the single coefficients slice
(holding the last interval's coefficients) and `Eval` selects the
interval `SearchNextIndex(x)` instead of the one containing `x`. -/
theorem spline_knot_eval_diverges :
    ((NewCubicSplineFunction exKnots).map fun s =>
        (s.Eval 0, s.Eval 1, s.Eval 2, s.Eval 3)) =
      some (some 3, some 3, some 0, some 1) := by
  rw [exSpline_eq, Option.map_some']
  have h0 : exSpline.Eval 0 = some 3 := by
    rw [CubicSplineFunction.Eval]
    norm_num [exSpline, exKnots, Points.XInRange, Points.XInRange.minmaxLoop,
      Points.SearchNextIndex, sortSearch, searchLoop, Points.Len, Points.XAt,
      Points.YAt, PolynomialFunction.Eval, horner, List.replicate_succ,
      CubicSplineAux.sharedCoefficients, CubicSplineAux.b, CubicSplineAux.c,
      CubicSplineAux.cAux, CubicSplineAux.d, CubicSplineAux.muz,
      CubicSplineAux.mu, CubicSplineAux.z, CubicSplineAux.differences,
      Points.XDifference, Points.YDifference, List.range_succ]
  have h1 : exSpline.Eval 1 = some 3 := by
    rw [CubicSplineFunction.Eval]
    norm_num [exSpline, exKnots, Points.XInRange, Points.XInRange.minmaxLoop,
      Points.SearchNextIndex, sortSearch, searchLoop, Points.Len, Points.XAt,
      Points.YAt, PolynomialFunction.Eval, horner, List.replicate_succ,
      CubicSplineAux.sharedCoefficients, CubicSplineAux.b, CubicSplineAux.c,
      CubicSplineAux.cAux, CubicSplineAux.d, CubicSplineAux.muz,
      CubicSplineAux.mu, CubicSplineAux.z, CubicSplineAux.differences,
      Points.XDifference, Points.YDifference, List.range_succ]
  have h2 : exSpline.Eval 2 = some 0 := by
    rw [CubicSplineFunction.Eval]
    norm_num [exSpline, exKnots, Points.XInRange, Points.XInRange.minmaxLoop,
      Points.SearchNextIndex, sortSearch, searchLoop, Points.Len, Points.XAt,
      Points.YAt, PolynomialFunction.Eval, horner, List.replicate_succ,
      CubicSplineAux.sharedCoefficients, CubicSplineAux.b, CubicSplineAux.c,
      CubicSplineAux.cAux, CubicSplineAux.d, CubicSplineAux.muz,
      CubicSplineAux.mu, CubicSplineAux.z, CubicSplineAux.differences,
      Points.XDifference, Points.YDifference, List.range_succ]
  have h3 : exSpline.Eval 3 = some 1 := by
    rw [CubicSplineFunction.Eval]
    norm_num [exSpline, exKnots, Points.XInRange, Points.XInRange.minmaxLoop,
      Points.SearchNextIndex, sortSearch, searchLoop, Points.Len, Points.XAt,
      Points.YAt, PolynomialFunction.Eval, horner, List.replicate_succ,
      CubicSplineAux.sharedCoefficients, CubicSplineAux.b, CubicSplineAux.c,
      CubicSplineAux.cAux, CubicSplineAux.d, CubicSplineAux.muz,
      CubicSplineAux.mu, CubicSplineAux.z, CubicSplineAux.differences,
      Points.XDifference, Points.YDifference, List.range_succ]
  rw [h0, h1, h2, h3]

/-- Claim C2 (refuting evaluation): every interval of the spline over
`(0,0),(1,1),(2,0),(3,1)` stores the same coefficient list
`[0, -1/3, 2, -2/3]` (the aliased slice, last interval's values), while
the back-substitution values for interval 0 are `[y[0], b[0], c[0], d[0]]
= [0, 5/3, 0, -2/3]` — the stored polynomial for interval 0 does not
carry its own interval's coefficients. -/
theorem spline_stored_coefficient_slice :
    ((NewCubicSplineFunction exKnots).map fun s =>
        s.polynomials.map (fun pf => pf.coefficients)) =
      some [[0, -(1 / 3), 2, -(2 / 3)], [0, -(1 / 3), 2, -(2 / 3)],
        [0, -(1 / 3), 2, -(2 / 3)]] ∧
    [exKnots.YAt 0, CubicSplineAux.b exKnots 0, CubicSplineAux.c exKnots 0,
        CubicSplineAux.d exKnots 0] = [0, 5 / 3, 0, -(2 / 3)] := by
  constructor
  · rw [exSpline_eq, Option.map_some', exSpline,
      show Points.Len exKnots - 1 = 3 from rfl, sharedCoefficients_exKnots]
    norm_num [List.replicate_succ]
  · norm_num [CubicSplineAux.b, CubicSplineAux.c, CubicSplineAux.cAux,
      CubicSplineAux.d, CubicSplineAux.muz, CubicSplineAux.mu,
      CubicSplineAux.z, CubicSplineAux.differences, Points.XDifference,
      Points.YDifference, Points.XAt, Points.YAt, Points.Len, exKnots]

/-- Claim C3: every constructed spline's `Eval` signals (`none`) exactly
when `XInRange` fails, and returns a value whenever `XInRange` holds; on
the spline over `(0,0),(1,1),(2,0),(3,1)`, `Eval(-1/2)` and `Eval(7/2)`
signal rather than produce a value. -/
theorem spline_eval_domain_check :
    (∀ (ps : Points) (s : CubicSplineFunction),
      NewCubicSplineFunction ps = some s → ∀ x : ℚ,
        (s.points.XInRange x = some false → s.Eval x = none) ∧
        (s.points.XInRange x = some true → ∃ y, s.Eval x = some y)) ∧
    ((NewCubicSplineFunction exKnots).map fun s =>
        (s.Eval (-(1 / 2)), s.Eval (7 / 2))) = some (none, none) := by
  constructor
  · intro ps s _ x
    constructor
    · intro hfalse
      simp [CubicSplineFunction.Eval, hfalse]
    · intro htrue
      simp only [CubicSplineFunction.Eval, htrue]
      exact ⟨_, rfl⟩
  · rw [exSpline_eq, Option.map_some']
    have hlo : exSpline.Eval (-(1 / 2)) = none := by
      rw [CubicSplineFunction.Eval]
      norm_num [exSpline, exKnots, Points.XInRange, Points.XInRange.minmaxLoop]
    have hhi : exSpline.Eval (7 / 2) = none := by
      rw [CubicSplineFunction.Eval]
      norm_num [exSpline, exKnots, Points.XInRange, Points.XInRange.minmaxLoop]
    rw [hlo, hhi]

/-- Witness for C3's general part: on the spline over `exKnots`,
`XInRange 2` holds and `Eval 2` produces a value. -/
theorem spline_eval_domain_check_witness :
    ∃ y, exSpline.Eval 2 = some y :=
  (spline_eval_domain_check.1 exKnots exSpline exSpline_eq 2).2 (by
    norm_num [exSpline, exKnots, Points.XInRange, Points.XInRange.minmaxLoop])

/-- Witness for C8's sortedness-hypothesis part on the knot set at `x = 5/2`. -/
theorem searchNextIndex_leftmost_upper_bound_witness :
    exKnots.SearchNextIndex (5 / 2) ≤ exKnots.Len ∧
    (∀ k < exKnots.SearchNextIndex (5 / 2), ¬(5 : ℚ) / 2 < exKnots.XAt k) ∧
    (exKnots.SearchNextIndex (5 / 2) < exKnots.Len →
      (5 : ℚ) / 2 < exKnots.XAt (exKnots.SearchNextIndex (5 / 2))) :=
  searchNextIndex_leftmost_upper_bound.1 exKnots (5 / 2) (by
    norm_num [exKnots, List.pairwise_cons])

end Tcgl
